import Mathlib

/-!
Verification of the retention / deletion pipeline of the container-registry
cleaning tool (source: src/clean_ghcr.py).

The embedding translates the pure decision logic of the source:
* the candidate-selection pipeline in the body of delete_pkgs (lines 158-202),
* the dependency resolution get_deps_pkgs / tagged_pkgs (lines 124-136, 170-178),
* the named-package lookup loop of get_list_packages (lines 71-103),
* the paginated GET loop get_req (lines 46-68),
* the deletion executor tail of delete_pkgs (lines 212-221).

External effects (HTTP responses, the manifest-inspection subprocess, the
current time produced by the datetime library) are modelled as explicit
function or value parameters, so every run of the embedded code is a pure
function of those inputs.
-/

namespace CleanGhcr

/-- A package version record as consumed by delete_pkgs: name is the content
digest, tags is metadata.container.tags, updated_at the timestamp string,
url the API url used for deletion. -/
structure PackageVersion where
  name : String
  tags : List String
  updated_at : String
  url : String
deriving DecidableEq, Repr

/-- A package record as consumed by delete_pkgs / get_list_packages:
repository is the name of the associated source repository when present. -/
structure Package where
  name : String
  repository : Option String
  url : String
deriving DecidableEq, Repr

/-- Constant DOCKER_ENDPOINT from the source. -/
def DOCKER_ENDPOINT : String := "ghcr.io/"

/-- Constant API_ENDPOINT from the source. -/
def API_ENDPOINT : String := "https://api.github.com"

/-- Constant PER_PAGE from the source. -/
def PER_PAGE : Nat := 30

/-- Lexicographic (code-point) comparison of char lists: the semantics of
the string less-than used by the source when it compares updated_at
strings. Executable counterpart of List.Lex on chars. -/
def charListLt : List Char → List Char → Bool
  | [], [] => false
  | [], _ :: _ => true
  | _ :: _, [] => false
  | a :: as, b :: bs =>
    if a.val.toNat < b.val.toNat then true
    else if b.val.toNat < a.val.toNat then false
    else charListLt as bs

/-- String less-than as evaluated by the interpreter on
pkg['updated_at'] < timestamp (line 200). -/
def strLt (s t : String) : Bool := charListLt s.data t.data

/-- A timestamp value with the six fields rendered by the strftime format
string of line 197. Models a value of the external datetime library. -/
structure DT where
  year : Nat
  month : Nat
  day : Nat
  hour : Nat
  minute : Nat
  second : Nat
deriving DecidableEq, Repr

/-- Fixed-width base-10 rendering, most significant digit first: padNum k n
is the k-character zero-padded decimal rendering of n (for n < 10^k). -/
def padNum : Nat → Nat → List Char
  | 0, _ => []
  | k + 1, n => Nat.digitChar (n / 10 ^ k) :: padNum k (n % 10 ^ k)

/-- strftime with format %Y-%m-%dT%H:%M:%SZ (line 197 of the source). -/
def strftime (d : DT) : String :=
  ⟨padNum 4 d.year ++ '-' :: (padNum 2 d.month ++ '-' :: (padNum 2 d.day ++
    'T' :: (padNum 2 d.hour ++ ':' :: (padNum 2 d.minute ++ ':' ::
    (padNum 2 d.second ++ ['Z'])))))⟩

/-- Chronological (field-lexicographic) strict order on timestamps. -/
def dtLt (a b : DT) : Prop :=
  a.year < b.year ∨ (a.year = b.year ∧
    (a.month < b.month ∨ (a.month = b.month ∧
      (a.day < b.day ∨ (a.day = b.day ∧
        (a.hour < b.hour ∨ (a.hour = b.hour ∧
          (a.minute < b.minute ∨ (a.minute = b.minute ∧
            a.second < b.second)))))))))

instance (a b : DT) : Decidable (dtLt a b) := by
  unfold dtLt
  infer_instance

/-- Field bounds under which each field fits its fixed width in the
strftime format. -/
def dtBounded (d : DT) : Prop :=
  d.year < 10 ^ 4 ∧ d.month < 10 ^ 2 ∧ d.day < 10 ^ 2 ∧
    d.hour < 10 ^ 2 ∧ d.minute < 10 ^ 2 ∧ d.second < 10 ^ 2

instance (d : DT) : Decidable (dtBounded d) := by
  unfold dtBounded
  infer_instance

/-- Flattening of the all_packages dict into the working version list
(lines 165-167). -/
def allVersions (all : List (String × List PackageVersion)) : List PackageVersion :=
  all.flatMap (fun p => p.2)

/-- The tagged_pkgs dict comprehension (lines 171-177): per package, keep
the versions whose tag list is non-empty (Python truthiness of the list). -/
def taggedPkgs (all : List (String × List PackageVersion)) :
    List (String × List PackageVersion) :=
  all.map (fun p => (p.1, p.2.filter (fun v => !v.tags.isEmpty)))

/-- get_deps_pkgs (lines 124-130): for every version of every package,
collect the digests returned by manifest inspection of the image reference
DOCKER_ENDPOINT + owner + "/" + pkg + "@" + digest. The manifest_deps
parameter models get_image_deps, i.e. the digest list extracted from the
manifests array of the inspected document. -/
def get_deps_pkgs (manifest_deps : String → List String) (owner : String)
    (pkgs : List (String × List PackageVersion)) : List String :=
  pkgs.flatMap (fun p => p.2.flatMap
    (fun v => manifest_deps (DOCKER_ENDPOINT ++ owner ++ "/" ++ p.1 ++ "@" ++ v.name)))

/-- The candidate-selection pipeline of delete_pkgs (lines 158-202), taken
in the filtered branch (untagged_only or older > 0). cutoff models the
value datetime.now() - timedelta(seconds=older) computed on line 197; it is
only consulted when 0 < older, exactly as in the source. -/
def selectCandidates (all : List (String × List PackageVersion))
    (except_untagged_multiplatform untagged_only : Bool) (older : Int)
    (manifest_deps : String → List String) (owner : String) (cutoff : DT) :
    List PackageVersion :=
  let packages := allVersions all
  let packages :=
    if except_untagged_multiplatform then
      packages.filter (fun v =>
        !((get_deps_pkgs manifest_deps owner (taggedPkgs all)).contains v.name))
    else packages
  let packages :=
    if untagged_only then packages.filter (fun v => v.tags.isEmpty) else packages
  if 0 < older then
    packages.filter (fun v => strLt v.updated_at (strftime cutoff))
  else packages

/-- get_all_package_versions (lines 106-121): map each listed package name
to the versions listed at its url. versionsOf models the paginated
get_all_package_versions_per_pkg listing result. -/
def get_all_package_versions (versionsOf : String → List PackageVersion)
    (pkgs : List Package) : List (String × List PackageVersion) :=
  pkgs.map (fun p => (p.name, versionsOf p.url))

/-- The deletion targets chosen by delete_pkgs (lines 158-210): version
urls in the filtered branch, whole-package urls in the simple branch. -/
def delete_pkgs_targets (pkgs : List Package)
    (versionsOf : String → List PackageVersion)
    (untagged_only except_untagged_multiplatform : Bool) (older : Int)
    (manifest_deps : String → List String) (owner : String) (cutoff : DT) :
    List String :=
  if untagged_only || decide (0 < older) then
    (selectCandidates (get_all_package_versions versionsOf pkgs)
        except_untagged_multiplatform untagged_only older manifest_deps owner
        cutoff).map (fun v => v.url)
  else
    pkgs.map (fun p => p.url)

/-- Observable events of the deletion executor: a DELETE request issued to
a url (del_req, line 212), the console report of the deleted count
(line 216), a line appended to the GITHUB_OUTPUT file (lines 217-219), an
exception raised (line 221). -/
inductive Event where
  | del : String → Event
  | logged : String → Event
  | output : String → Event
  | raised : String → Event
deriving DecidableEq, Repr

/-- Whether an event is a DELETE request. -/
def Event.isDel : Event → Bool
  | Event.del _ => true
  | _ => false

/-- len_ok of line 213: the number of delete responses with ok status. -/
def num_ok (delete : String → Bool) (urls : List String) : Nat :=
  ((urls.map delete).filter (fun b => b)).length

/-- len_fail of line 214. -/
def num_fail (delete : String → Bool) (urls : List String) : Nat :=
  (urls.map delete).length - num_ok delete urls

/-- The deletion executor tail of delete_pkgs (lines 212-221) as its event
trace: one del_req per target url in order, then the deleted-count report,
then the pipeline output line when the GITHUB_OUTPUT env var is set, then
the exception when any deletion failed. delete models the server side:
del_req(url).ok. -/
def delete_pkgs_exec (delete : String → Bool) (urls : List String)
    (githubOutput : Bool) : List Event :=
  urls.map Event.del
    ++ ([Event.logged ("Deleted " ++ toString (num_ok delete urls) ++ " package")]
      ++ ((if githubOutput then
            [Event.output ("num_deleted=" ++ toString (num_ok delete urls))]
          else [])
        ++ (if num_fail delete urls > 0 then
            [Event.raised ("fail delete " ++ toString (num_fail delete urls))]
          else [])))

/-- The response observed for a single named-package GET
(lines 79-88): ok flag, status code, body text, and the parsed package
document (meaningful when ok). -/
structure PkgResponse where
  ok : Bool
  status_code : Nat
  text : String
  json : Package

/-- The named-package loop of get_list_packages (lines 73-88): fetch each
name; append the parsed package when ok; on 404 log a warning and skip the
name; on any other failure raise. Returns the warning lines together with
the collected packages. lookup models the GET of the single-package url
built from the (url-quoted) name. -/
def get_named_packages (lookup : String → PkgResponse) :
    List String → Except String (List String × List Package)
  | [] => Except.ok ([], [])
  | n :: rest =>
    let r := lookup n
    if r.ok then
      match get_named_packages lookup rest with
      | Except.ok (ws, ps) => Except.ok (ws, r.json :: ps)
      | Except.error e => Except.error e
    else if r.status_code == 404 then
      match get_named_packages lookup rest with
      | Except.ok (ws, ps) =>
        Except.ok (("WARNING: Package " ++ n ++ " does not exist.") :: ws, ps)
      | Except.error e => Except.error e
    else Except.error r.text

/-- get_list_packages (lines 71-103): named lookups when package_names is
non-empty, otherwise the paginated owner-wide listing (modelled by its
result listAll); then the deleted_ prefix workaround filter and the
case-insensitive repository filter. -/
def get_list_packages (lookup : String → PkgResponse)
    (listAll : Except String (List Package)) (repo_name : String)
    (package_names : List String) :
    Except String (List String × List Package) :=
  match (if package_names.isEmpty then
      Except.map (fun ps => (([] : List String), ps)) listAll
    else get_named_packages lookup package_names) with
  | Except.error e => Except.error e
  | Except.ok (ws, pkgs) =>
    let pkgs := pkgs.filter (fun p => !(p.name.startsWith ("deleted_")))
    let pkgs :=
      if !repo_name.isEmpty then
        pkgs.filter (fun p =>
          match p.repository with
          | some rn => rn.toLower == repo_name
          | none => false)
      else pkgs
    Except.ok (ws, pkgs)

/-- The query parameters manipulated by get_req (lines 46-68): the page
counter and the per_page size. Remaining query parameters are never
touched by the loop and are folded into the serve function. -/
structure Params where
  page : Option Nat := none
  per_page : Option Nat := none
deriving DecidableEq, Repr

/-- One GET response as consumed by the pagination loop: ok flag, body
text, the parsed json array, and the url of the next link when the
response carries one. -/
structure HttpPage (α : Type) where
  ok : Bool
  text : String
  json : List α
  next : Option String
deriving DecidableEq, Repr

/-- get_url (lines 21-24). -/
def get_url (path : String) : String :=
  if path.startsWith API_ENDPOINT then path else API_ENDPOINT ++ path

/-- The parameter initialization of get_req (lines 47-51):
params.update(page=1) and the per_page default. -/
def initParams (params : Params) : Params :=
  { params with page := some 1, per_page := some (params.per_page.getD PER_PAGE) }

/-- The while loop of get_req (lines 53-68), with explicit fuel bounding
the number of iterations: none means the loop was still running when the
fuel ran out. On a non-ok response it raises; otherwise it extends the
accumulated result with the page items, stops when there is no next link,
and else follows the next link after removing the page parameter. -/
def get_req_go {α : Type} (serve : String → Params → HttpPage α) :
    Nat → String → Params → List α → Option (Except String (List α))
  | 0, _, _, _ => none
  | fuel + 1, url, params, acc =>
    let r := serve url params
    if r.ok then
      match r.next with
      | none => some (Except.ok (acc ++ r.json))
      | some nxt => get_req_go serve fuel nxt { params with page := none } (acc ++ r.json)
    else some (Except.error r.text)

/-- get_req (lines 46-68): initialize the parameters and run the loop
starting from the resolved url with an empty result. -/
def get_req {α : Type} (serve : String → Params → HttpPage α) (fuel : Nat)
    (path : String) (params : Params) : Option (Except String (List α)) :=
  get_req_go serve fuel (get_url path) (initParams params) []

/-- A finite pagination chain: the server answers the given request with
the first page, every page is ok, every page but the last names a next
url, and each next url (requested with the page parameter removed, as the
loop does from the second request on) continues the chain. -/
inductive Chain {α : Type} (serve : String → Params → HttpPage α) :
    String → Params → List (HttpPage α) → Prop
  | last {url : String} {params : Params} {p : HttpPage α} :
      serve url params = p → p.ok = true → p.next = none →
      Chain serve url params [p]
  | step {url : String} {params : Params} {p : HttpPage α} {url2 : String}
      {ps : List (HttpPage α)} :
      serve url params = p → p.ok = true → p.next = some url2 →
      Chain serve url2 { params with page := none } ps →
      Chain serve url params (p :: ps)

/-! ### Characterization of the candidate-selection pipeline -/

/-- Membership in the output of the candidate-selection pipeline, for any
combination of options: a version is selected iff it was listed, its digest
is not protected (when dependency protection is on — the protected set
being computed from the original tagged map), it is untagged (when
untagged_only is on), and its timestamp sorts before the cutoff string
(when the age filter is on). -/
theorem mem_selectCandidates (all : List (String × List PackageVersion))
    (eum uo : Bool) (older : Int) (manifest_deps : String → List String)
    (owner : String) (cutoff : DT) (v : PackageVersion) :
    v ∈ selectCandidates all eum uo older manifest_deps owner cutoff ↔
      v ∈ allVersions all
      ∧ (eum = true → v.name ∉ get_deps_pkgs manifest_deps owner (taggedPkgs all))
      ∧ (uo = true → v.tags = [])
      ∧ (0 < older → strLt v.updated_at (strftime cutoff) = true) := by
  unfold selectCandidates
  cases eum <;> cases uo <;> by_cases h : 0 < older <;>
    simp [h, List.mem_filter, and_assoc] <;> tauto

/-- C1: with dependency protection enabled, a version is a deletion
candidate iff it was listed, its digest is not among the sub-manifest
digests collected from the original tagged version map taggedPkgs all
(computed before the untagged and age filters are applied), and it passes
the untagged and age filters when those are enabled. In particular no
version whose digest is protected ever appears in the candidate set. -/
theorem dependency_protection_invariant (all : List (String × List PackageVersion))
    (uo : Bool) (older : Int) (manifest_deps : String → List String)
    (owner : String) (cutoff : DT) (v : PackageVersion) :
    v ∈ selectCandidates all true uo older manifest_deps owner cutoff ↔
      v ∈ allVersions all
      ∧ v.name ∉ get_deps_pkgs manifest_deps owner (taggedPkgs all)
      ∧ (uo = true → v.tags = [])
      ∧ (0 < older → strLt v.updated_at (strftime cutoff) = true) := by
  simpa using mem_selectCandidates all true uo older manifest_deps owner cutoff v

/-- C2: with dependency protection disabled and untagged_only set, a
version is a candidate iff it was listed, its tag list is empty, and it
passes the age filter when that is enabled; on the concrete two-version
input of the spec scenario the candidate set is exactly the sha1
version. -/
theorem untagged_only_candidates (all : List (String × List PackageVersion))
    (older : Int) (manifest_deps : String → List String) (owner : String)
    (cutoff : DT) (v : PackageVersion) :
    (v ∈ selectCandidates all false true older manifest_deps owner cutoff ↔
      v ∈ allVersions all ∧ v.tags = []
      ∧ (0 < older → strLt v.updated_at (strftime cutoff) = true))
    ∧ selectCandidates
        [("api", [⟨"sha1", [], "2020-01-01T00:00:00Z", "u1"⟩,
                  ⟨"sha2", ["latest"], "2024-01-01T00:00:00Z", "u2"⟩])]
        false true 0 (fun _ => []) "acme" ⟨0, 0, 0, 0, 0, 0⟩
      = [⟨"sha1", [], "2020-01-01T00:00:00Z", "u1"⟩] := by
  constructor
  · simpa using mem_selectCandidates all false true older manifest_deps owner cutoff v
  · decide

/-- Witness for C1: an untagged version whose digest is a sub-manifest
digest of the tagged version is not a candidate. -/
theorem dependency_protection_invariant_witness :
    (⟨"sha1", [], "2020-01-01T00:00:00Z", "u1"⟩ : PackageVersion) ∉
      selectCandidates
        [("api", [⟨"sha1", [], "2020-01-01T00:00:00Z", "u1"⟩,
                  ⟨"sha2", ["latest"], "2024-01-01T00:00:00Z", "u2"⟩])]
        true true 0 (fun _ => ["sha1"]) "acme" ⟨0, 0, 0, 0, 0, 0⟩ :=
  fun hmem =>
    (((dependency_protection_invariant
        [("api", [⟨"sha1", [], "2020-01-01T00:00:00Z", "u1"⟩,
                  ⟨"sha2", ["latest"], "2024-01-01T00:00:00Z", "u2"⟩])]
        true 0 (fun _ => ["sha1"]) "acme" ⟨0, 0, 0, 0, 0, 0⟩
        ⟨"sha1", [], "2020-01-01T00:00:00Z", "u1"⟩).mp hmem).2.1) (by decide)

/-- Witness for C2: the untagged sha1 version of the spec scenario is a
candidate. -/
theorem untagged_only_candidates_witness :
    (⟨"sha1", [], "2020-01-01T00:00:00Z", "u1"⟩ : PackageVersion) ∈
      selectCandidates
        [("api", [⟨"sha1", [], "2020-01-01T00:00:00Z", "u1"⟩,
                  ⟨"sha2", ["latest"], "2024-01-01T00:00:00Z", "u2"⟩])]
        false true 0 (fun _ => []) "acme" ⟨0, 0, 0, 0, 0, 0⟩ :=
  ((untagged_only_candidates
      [("api", [⟨"sha1", [], "2020-01-01T00:00:00Z", "u1"⟩,
                ⟨"sha2", ["latest"], "2024-01-01T00:00:00Z", "u2"⟩])]
      0 (fun _ => []) "acme" ⟨0, 0, 0, 0, 0, 0⟩
      ⟨"sha1", [], "2020-01-01T00:00:00Z", "u1"⟩).1).mpr (by decide)

/-- C9: the candidate-selection pipeline is deterministic: with the
version listing, the options, the manifest-inspection results and the
current time all fixed as explicit inputs, two runs return the same
candidate list. In the source the only run-to-run variability comes from
these inputs (datetime.now() and the docker manifest calls), which the
embedding makes explicit parameters. -/
theorem selectCandidates_deterministic (all : List (String × List PackageVersion))
    (eum uo : Bool) (older : Int) (manifest_deps : String → List String)
    (owner : String) (cutoff : DT) (r1 r2 : List PackageVersion)
    (h1 : r1 = selectCandidates all eum uo older manifest_deps owner cutoff)
    (h2 : r2 = selectCandidates all eum uo older manifest_deps owner cutoff) :
    r1 = r2 := by
  rw [h1, h2]

/-- Witness for C9 at a concrete input. -/
theorem selectCandidates_deterministic_witness :
    ([⟨"sha1", [], "2020-01-01T00:00:00Z", "u1"⟩] : List PackageVersion)
      = [⟨"sha1", [], "2020-01-01T00:00:00Z", "u1"⟩] :=
  selectCandidates_deterministic
    [("api", [⟨"sha1", [], "2020-01-01T00:00:00Z", "u1"⟩,
              ⟨"sha2", ["latest"], "2024-01-01T00:00:00Z", "u2"⟩])]
    false true 0 (fun _ => []) "acme" ⟨0, 0, 0, 0, 0, 0⟩ _ _ (by decide) (by decide)

/-- C8: when neither untagged_only nor a positive older value is given,
the deletion targets are the urls of the whole packages returned by the
package listing, and the result does not depend on the version listing,
the manifest-inspection results or the cutoff time — none of those are
consulted in this branch. -/
theorem simple_mode_deletes_packages (pkgs : List Package)
    (versionsOf1 versionsOf2 : String → List PackageVersion)
    (eum1 eum2 : Bool) (deps1 deps2 : String → List String)
    (owner1 owner2 : String) (c1 c2 : DT) (older : Int) (h : ¬ 0 < older) :
    delete_pkgs_targets pkgs versionsOf1 false eum1 older deps1 owner1 c1 =
        pkgs.map (fun p => p.url)
    ∧ delete_pkgs_targets pkgs versionsOf1 false eum1 older deps1 owner1 c1 =
        delete_pkgs_targets pkgs versionsOf2 false eum2 older deps2 owner2 c2 := by
  unfold delete_pkgs_targets
  simp [h]

/-- Witness for C8 at a concrete input. -/
theorem simple_mode_deletes_packages_witness :
    delete_pkgs_targets [⟨"api", none, "pu"⟩] (fun _ => []) false false 0
        (fun _ => []) "acme" ⟨0, 0, 0, 0, 0, 0⟩ = ["pu"] :=
  (simple_mode_deletes_packages [⟨"api", none, "pu"⟩] (fun _ => []) (fun _ => [])
    false true (fun _ => []) (fun _ => ["d"]) "acme" "other" ⟨0, 0, 0, 0, 0, 0⟩
    ⟨1, 1, 1, 1, 1, 1⟩ 0 (by decide)).1

/-! ### Lexicographic string comparison versus chronological comparison -/

/-- Unfolding of strLt on explicitly listed strings. -/
theorem strLt_mk (l1 l2 : List Char) : strLt ⟨l1⟩ ⟨l2⟩ = charListLt l1 l2 := rfl

/-- The lexicographic comparison is irreflexive. -/
theorem charListLt_irrefl : ∀ l : List Char, charListLt l l = false
  | [] => rfl
  | _ :: as => by simp [charListLt, charListLt_irrefl as]

/-- A string never sorts strictly before itself. -/
theorem strLt_self (s : String) : strLt s s = false :=
  charListLt_irrefl s.data

/-- Head-tail characterization of the lexicographic comparison. -/
theorem charListLt_cons (a b : Char) (as bs : List Char) :
    charListLt (a :: as) (b :: bs) = true ↔
      a.val.toNat < b.val.toNat ∨ (a = b ∧ charListLt as bs = true) := by
  by_cases h1 : a.val.toNat < b.val.toNat
  · simp [charListLt, h1]
  · by_cases h2 : b.val.toNat < a.val.toNat
    · have hne : ¬ a = b := by
        intro h
        subst h
        omega
      simp [charListLt, h1, h2, hne]
    · have heq : a = b := Char.ext (UInt32.ext (by omega))
      simp [charListLt, h1, h2, heq]

/-- Lexicographic comparison of equal-length-prefix concatenations splits
into comparison of the prefixes and, at equal prefixes, of the tails. -/
theorem charListLt_append : ∀ (as bs xs ys : List Char), as.length = bs.length →
    (charListLt (as ++ xs) (bs ++ ys) = true ↔
      charListLt as bs = true ∨ (as = bs ∧ charListLt xs ys = true))
  | [], [], xs, ys, _ => by simp [charListLt]
  | [], _ :: _, _, _, h => by simp at h
  | _ :: _, [], _, _, h => by simp at h
  | a :: as, b :: bs, xs, ys, h => by
    have ih := charListLt_append as bs xs ys (by simpa using h)
    simp only [List.cons_append, charListLt_cons, ih, List.cons.injEq]
    tauto

/-- padNum always renders exactly k characters. -/
theorem padNum_length : ∀ (k n : Nat), (padNum k n).length = k
  | 0, _ => rfl
  | k + 1, n => by simp [padNum, padNum_length k]

/-- Splitting of the order on naturals along division with remainder. -/
theorem nat_lt_iff_div_mod (B n m : Nat) (hB : 0 < B) :
    n < m ↔ (n / B < m / B ∨ (n / B = m / B ∧ n % B < m % B)) := by
  constructor
  · intro h
    rcases Nat.lt_trichotomy (n / B) (m / B) with h1 | h1 | h1
    · exact Or.inl h1
    · refine Or.inr ⟨h1, ?_⟩
      have hn := Nat.div_add_mod n B
      have hm := Nat.div_add_mod m B
      rw [← hn, ← hm, h1] at h
      exact (Nat.add_lt_add_iff_left).mp h
    · exact absurd (Nat.div_le_div_right (Nat.le_of_lt h)) (Nat.not_le_of_lt h1)
  · rintro (h1 | ⟨h1, h2⟩)
    · have h2 : n < B * (n / B + 1) := by
        rw [Nat.mul_succ]
        conv_lhs => rw [← Nat.div_add_mod n B]
        exact Nat.add_lt_add_left (Nat.mod_lt n hB) _
      have h3 : B * (n / B + 1) ≤ B * (m / B) :=
        Nat.mul_le_mul_left B (Nat.succ_le_of_lt h1)
      have h4 : B * (m / B) ≤ m := by
        conv_rhs => rw [← Nat.div_add_mod m B]
        exact Nat.le_add_right _ _
      exact Nat.lt_of_lt_of_le h2 (Nat.le_trans h3 h4)
    · conv_lhs => rw [← Nat.div_add_mod n B]
      conv_rhs => rw [← Nat.div_add_mod m B]
      rw [h1]
      exact Nat.add_lt_add_left h2 _

/-- Splitting of equality on naturals along division with remainder. -/
theorem nat_eq_iff_div_mod (B n m : Nat) :
    n = m ↔ (n / B = m / B ∧ n % B = m % B) := by
  constructor
  · rintro rfl
    exact ⟨rfl, rfl⟩
  · rintro ⟨h1, h2⟩
    conv_lhs => rw [← Nat.div_add_mod n B]
    conv_rhs => rw [← Nat.div_add_mod m B]
    rw [h1, h2]

/-- Code-point comparison of decimal digit characters agrees with the
order of the digits. -/
theorem digitChar_val_lt : ∀ d < 10, ∀ e < 10,
    (((Nat.digitChar d).val.toNat < (Nat.digitChar e).val.toNat) ↔ d < e) := by
  decide

/-- Decimal digit characters of distinct digits are distinct. -/
theorem digitChar_eq_iff : ∀ d < 10, ∀ e < 10,
    ((Nat.digitChar d = Nat.digitChar e) ↔ d = e) := by
  decide

/-- On k-digit zero-padded renderings, lexicographic comparison is
numeric comparison. -/
theorem padNum_lt_iff : ∀ (k n m : Nat), n < 10 ^ k → m < 10 ^ k →
    ((charListLt (padNum k n) (padNum k m) = true) ↔ n < m)
  | 0, n, m, hn, hm => by
    simp [padNum, charListLt]
    omega
  | k + 1, n, m, hn, hm => by
    have hB : 0 < 10 ^ k := Nat.pos_pow_of_pos k (by norm_num)
    have hdn : n / 10 ^ k < 10 := by
      rw [Nat.div_lt_iff_lt_mul hB]
      rw [Nat.pow_succ] at hn
      omega
    have hdm : m / 10 ^ k < 10 := by
      rw [Nat.div_lt_iff_lt_mul hB]
      rw [Nat.pow_succ] at hm
      omega
    have ih := padNum_lt_iff k (n % 10 ^ k) (m % 10 ^ k)
      (Nat.mod_lt n hB) (Nat.mod_lt m hB)
    rw [padNum, padNum, charListLt_cons, ih,
      digitChar_val_lt _ hdn _ hdm, digitChar_eq_iff _ hdn _ hdm,
      ← nat_lt_iff_div_mod (10 ^ k) n m hB]

/-- k-digit zero-padded renderings are equal exactly for equal numbers. -/
theorem padNum_inj : ∀ (k n m : Nat), n < 10 ^ k → m < 10 ^ k →
    ((padNum k n = padNum k m) ↔ n = m)
  | 0, n, m, hn, hm => by
    simp [padNum]
    omega
  | k + 1, n, m, hn, hm => by
    have hB : 0 < 10 ^ k := Nat.pos_pow_of_pos k (by norm_num)
    have hdn : n / 10 ^ k < 10 := by
      rw [Nat.div_lt_iff_lt_mul hB]
      rw [Nat.pow_succ] at hn
      omega
    have hdm : m / 10 ^ k < 10 := by
      rw [Nat.div_lt_iff_lt_mul hB]
      rw [Nat.pow_succ] at hm
      omega
    have ih := padNum_inj k (n % 10 ^ k) (m % 10 ^ k)
      (Nat.mod_lt n hB) (Nat.mod_lt m hB)
    rw [padNum, padNum, List.cons.injEq, ih,
      digitChar_eq_iff _ hdn _ hdm, ← nat_eq_iff_div_mod (10 ^ k) n m]

/-- One field block of the timestamp format: comparison of a padded field
followed by a common separator splits into numeric comparison of the field
and, at equal fields, comparison of the remainders. -/
theorem charListLt_block (k n m : Nat) (hn : n < 10 ^ k) (hm : m < 10 ^ k)
    (c : Char) (xs ys : List Char) :
    (charListLt (padNum k n ++ c :: xs) (padNum k m ++ c :: ys) = true) ↔
      (n < m ∨ (n = m ∧ charListLt xs ys = true)) := by
  rw [charListLt_append _ _ _ _ (by rw [padNum_length, padNum_length]),
    padNum_lt_iff k n m hn hm, padNum_inj k n m hn hm, charListLt_cons]
  simp

/-- On timestamps whose fields fit the fixed widths, lexicographic
comparison of the strftime renderings is chronological comparison. -/
theorem strftime_lt_iff (a b : DT) (ha : dtBounded a) (hb : dtBounded b) :
    (strLt (strftime a) (strftime b) = true) ↔ dtLt a b := by
  obtain ⟨ha1, ha2, ha3, ha4, ha5, ha6⟩ := ha
  obtain ⟨hb1, hb2, hb3, hb4, hb5, hb6⟩ := hb
  unfold strftime dtLt
  rw [strLt_mk,
    charListLt_block 4 _ _ ha1 hb1,
    charListLt_block 2 _ _ ha2 hb2,
    charListLt_block 2 _ _ ha3 hb3,
    charListLt_block 2 _ _ ha4 hb4,
    charListLt_block 2 _ _ ha5 hb5,
    charListLt_block 2 _ _ ha6 hb6]
  simp [charListLt]

/-- C3: with the age filter on, the pipeline keeps a listed version
exactly when its updated_at sorts lexicographically before the cutoff
string strftime cut, where cut is the value of current time minus older
seconds (the source computes the cutoff as the strftime rendering of that
value, line 197); and for a version whose updated_at is itself a rendering
in the same fixed format, that string comparison coincides with
chronological comparison of the two timestamps. -/
theorem age_cutoff_lex_iff_chron (all : List (String × List PackageVersion))
    (older : Int) (h : 0 < older) (manifest_deps : String → List String)
    (owner : String) (cut d : DT) (hc : dtBounded cut) (hd : dtBounded d)
    (v : PackageVersion) (hv : v.updated_at = strftime d)
    (hmem : v ∈ allVersions all) :
    (v ∈ selectCandidates all false false older manifest_deps owner cut ↔
      strLt v.updated_at (strftime cut) = true)
    ∧ (strLt v.updated_at (strftime cut) = true ↔ dtLt d cut) := by
  constructor
  · rw [mem_selectCandidates]
    simp [hmem, h]
  · rw [hv]
    exact strftime_lt_iff d cut hd hc

/-- Witness for C3: a 2020 version is selected against a 2024 cutoff. -/
theorem age_cutoff_lex_iff_chron_witness :
    (⟨"sha", [], "2020-01-01T00:00:00Z", "u"⟩ : PackageVersion) ∈
      selectCandidates [("api", [⟨"sha", [], "2020-01-01T00:00:00Z", "u"⟩])]
        false false 1 (fun _ => []) "acme" ⟨2024, 6, 1, 0, 0, 0⟩ :=
  ((age_cutoff_lex_iff_chron
      [("api", [⟨"sha", [], "2020-01-01T00:00:00Z", "u"⟩])] 1 (by decide)
      (fun _ => []) "acme" ⟨2024, 6, 1, 0, 0, 0⟩ ⟨2020, 1, 1, 0, 0, 0⟩
      (by decide) (by decide) ⟨"sha", [], "2020-01-01T00:00:00Z", "u"⟩
      (by decide) (by decide)).1).mpr (by decide)

/-- C4: the age filter is strict: a version whose updated_at equals the
cutoff string is never selected (whatever the other options), and a listed
version whose updated_at sorts strictly before the cutoff string is
selected (with the other filters disabled). -/
theorem age_filter_strict_boundary (all : List (String × List PackageVersion))
    (eum uo : Bool) (older : Int) (h : 0 < older)
    (manifest_deps : String → List String) (owner : String) (cut : DT)
    (v : PackageVersion) :
    (v.updated_at = strftime cut →
      v ∉ selectCandidates all eum uo older manifest_deps owner cut)
    ∧ (v ∈ allVersions all → strLt v.updated_at (strftime cut) = true →
      v ∈ selectCandidates all false false older manifest_deps owner cut) := by
  constructor
  · intro hv hmem
    rw [mem_selectCandidates] at hmem
    have hlt := hmem.2.2.2 h
    rw [hv, strLt_self] at hlt
    exact Bool.false_ne_true hlt
  · intro hmem hlt
    rw [mem_selectCandidates]
    exact ⟨hmem, by simp, by simp, fun _ => hlt⟩

/-- Witness for C4: a version timestamped exactly at the cutoff is not
selected. -/
theorem age_filter_strict_boundary_witness :
    (⟨"sha", [], "2024-06-01T00:00:00Z", "u"⟩ : PackageVersion) ∉
      selectCandidates [("api", [⟨"sha", [], "2024-06-01T00:00:00Z", "u"⟩])]
        false false 1 (fun _ => []) "acme" ⟨2024, 6, 1, 0, 0, 0⟩ :=
  (age_filter_strict_boundary
      [("api", [⟨"sha", [], "2024-06-01T00:00:00Z", "u"⟩])] false false 1
      (by decide) (fun _ => []) "acme" ⟨2024, 6, 1, 0, 0, 0⟩
      ⟨"sha", [], "2024-06-01T00:00:00Z", "u"⟩).1 (by decide)

/-! ### Pagination -/

/-- The pagination loop consumes a finite chain of pages, accumulating
their items in order, within fuel equal to the number of pages. -/
theorem get_req_go_chain {α : Type} (serve : String → Params → HttpPage α)
    {url : String} {params : Params} {ps : List (HttpPage α)}
    (h : Chain serve url params ps) :
    ∀ acc : List α, get_req_go serve ps.length url params acc =
      some (Except.ok (acc ++ ps.flatMap (fun p => p.json))) := by
  induction h with
  | last h1 h2 h3 =>
    intro acc
    simp [get_req_go, h1, h2, h3]
  | step h1 h2 h3 _ ih =>
    intro acc
    simp only [List.length_cons, get_req_go, h1, h2, h3, if_pos]
    rw [ih]
    simp

/-- C5: for every finite pagination chain of N response pages, each page
but the last carrying a next link, get_req terminates within N requests
and returns the concatenation of all pages' items in order. The Chain
hypothesis constrains the server only on the requests the loop actually
makes: the first request carries page=1, and every following request is
made to the link url with the explicit page parameter removed — so the
chain (and hence termination) does not rely on link urls carrying any page
number of their own. -/
theorem get_req_paginates {α : Type} (serve : String → Params → HttpPage α)
    (path : String) (params : Params) (ps : List (HttpPage α))
    (h : Chain serve (get_url path) (initParams params) ps) :
    get_req serve ps.length path params =
      some (Except.ok (ps.flatMap (fun p => p.json))) := by
  unfold get_req
  simpa using get_req_go_chain serve h []

set_option maxRecDepth 4096 in
/-- Witness for C5: a two-page listing is concatenated in order. -/
theorem get_req_paginates_witness :
    get_req (fun url _ =>
        if url = "https://api.github.com/pkgs" then
          (⟨true, "", [1, 2], some ("https://api.github.com/more")⟩ : HttpPage Nat)
        else ⟨true, "", [3], none⟩)
      2 "/pkgs" {} = some (Except.ok [1, 2, 3]) := by
  have h := get_req_paginates (fun url _ =>
      if url = "https://api.github.com/pkgs" then
        (⟨true, "", [1, 2], some ("https://api.github.com/more")⟩ : HttpPage Nat)
      else ⟨true, "", [3], none⟩)
    "/pkgs" {}
    [⟨true, "", [1, 2], some ("https://api.github.com/more")⟩, ⟨true, "", [3], none⟩]
    (Chain.step rfl rfl rfl (Chain.last rfl rfl rfl))
  simpa using h

/-! ### Deletion executor -/

/-- The ok count of the status list is the number of urls whose deletion
succeeds. -/
theorem num_ok_eq_countP (delete : String → Bool) (urls : List String) :
    num_ok delete urls = urls.countP (fun u => delete u) := by
  unfold num_ok
  rw [← List.countP_eq_length_filter, List.countP_map]
  rfl

/-- Successes and failures partition the attempts. -/
theorem countP_not_add (p : String → Bool) (l : List String) :
    l.countP (fun u => p u) + l.countP (fun u => !(p u)) = l.length := by
  induction l with
  | nil => simp
  | cons a l ih =>
    by_cases h : p a = true <;> simp [List.countP_cons, h, ← ih] <;> omega

/-- The fail count of the status list is the number of urls whose deletion
fails. -/
theorem num_fail_eq_countP (delete : String → Bool) (urls : List String) :
    num_fail delete urls = urls.countP (fun u => !(delete u)) := by
  unfold num_fail
  rw [num_ok_eq_countP, List.length_map]
  have h := countP_not_add delete urls
  omega

/-- In a trace made of delete events followed by non-delete events, every
delete event is indexed before every raised event. -/
theorem del_before_raised_aux (A rest : List Event)
    (hA : ∀ x ∈ A, Event.isDel x = true)
    (hR : ∀ x ∈ rest, Event.isDel x = false) (i j : Nat) (e s : String)
    (hi : (A ++ rest)[i]? = some (Event.del e))
    (hj : (A ++ rest)[j]? = some (Event.raised s)) : i < j := by
  have hiA : i < A.length := by
    by_contra hc
    push_neg at hc
    rw [List.getElem?_append_right hc] at hi
    have h1 := hR _ (List.getElem?_mem hi)
    simp [Event.isDel] at h1
  have hjA : A.length ≤ j := by
    by_contra hc
    push_neg at hc
    rw [List.getElem?_append_left hc] at hj
    have h1 := hA _ (List.getElem?_mem hj)
    simp [Event.isDel] at h1
  omega

/-- C6: the deletion executor issues exactly one delete call per candidate
url, in order and regardless of individual failures; it reports the count
of successful deletions; a raised run-level error is present exactly when
at least one deletion failed, it carries the failure count, and every
raised event comes after every delete call. -/
theorem deletion_executor_contract (delete : String → Bool)
    (urls : List String) (githubOutput : Bool) :
    ((delete_pkgs_exec delete urls githubOutput).filter Event.isDel =
      urls.map Event.del)
    ∧ (Event.logged ("Deleted " ++ toString (urls.countP (fun u => delete u))
        ++ " package") ∈ delete_pkgs_exec delete urls githubOutput)
    ∧ ((∃ s, Event.raised s ∈ delete_pkgs_exec delete urls githubOutput) ↔
        ∃ u ∈ urls, delete u = false)
    ∧ ((∃ u ∈ urls, delete u = false) →
        Event.raised ("fail delete "
            ++ toString (urls.countP (fun u => !(delete u)))) ∈
          delete_pkgs_exec delete urls githubOutput)
    ∧ (∀ i j : Nat, ∀ e s : String,
        (delete_pkgs_exec delete urls githubOutput)[i]? = some (Event.del e) →
        (delete_pkgs_exec delete urls githubOutput)[j]? =
          some (Event.raised s) →
        i < j) := by
  have hfail : (0 < num_fail delete urls) ↔ ∃ u ∈ urls, delete u = false := by
    rw [num_fail_eq_countP, List.countP_pos_iff]
    simp
  refine ⟨?_, ?_, ?_, ?_, ?_⟩
  · unfold delete_pkgs_exec
    rw [List.filter_append, List.filter_append, List.filter_append,
      List.filter_eq_self.mpr]
    · have h1 : (List.filter Event.isDel
          [Event.logged ("Deleted " ++ toString (num_ok delete urls)
            ++ " package")]) = [] := rfl
      rw [h1]
      have h2 : ∀ c : Bool, ∀ x : Event, List.filter Event.isDel
          (if c then [x] else []) = List.filter Event.isDel [x] ∨
          List.filter Event.isDel (if c then [x] else []) = [] := by
        intro c x
        cases c
        · exact Or.inr rfl
        · exact Or.inl rfl
      rcases h2 githubOutput (Event.output ("num_deleted="
          ++ toString (num_ok delete urls))) with h3 | h3 <;>
        rcases h2 (decide (num_fail delete urls > 0)) (Event.raised
          ("fail delete " ++ toString (num_fail delete urls))) with h4 | h4 <;>
        simp only [decide_eq_true_eq] at h4 <;>
        rw [h3, h4] <;> simp [Event.isDel]
    · intro x hx
      obtain ⟨u, _, rfl⟩ := List.mem_map.mp hx
      rfl
  · unfold delete_pkgs_exec
    rw [num_ok_eq_countP]
    simp
  · unfold delete_pkgs_exec
    rw [← hfail]
    constructor
    · rintro ⟨s, hs⟩
      by_cases h2 : 0 < num_fail delete urls
      · exact h2
      · exfalso
        simp [h2] at hs
    · intro h1
      refine ⟨"fail delete " ++ toString (num_fail delete urls), ?_⟩
      simp only [List.mem_append]
      right
      right
      right
      simp [h1]
  · intro h1
    rw [← hfail] at h1
    unfold delete_pkgs_exec
    rw [num_fail_eq_countP] at h1 ⊢
    simp only [List.mem_append]
    right
    right
    right
    simp [h1]
  · intro i j e s hi hj
    unfold delete_pkgs_exec at hi hj
    refine del_before_raised_aux _ _ ?_ ?_ i j e s hi hj
    · intro x hx
      obtain ⟨u, _, rfl⟩ := List.mem_map.mp hx
      rfl
    · intro x hx
      simp only [List.mem_append, List.mem_singleton] at hx
      rcases hx with h1 | h1 | h1
      · rw [h1]
        rfl
      · rcases githubOutput with _ | _
        · simp at h1
        · simp at h1
          rw [h1]
          rfl
      · rcases Nat.lt_or_ge 0 (num_fail delete urls) with h2 | h2
        · rw [if_pos h2] at h1
          simp at h1
          rw [h1]
          rfl
        · rw [if_neg (by omega)] at h1
          simp at h1

/-- Witness for C6: with one failing url the failure-count error event is
in the trace. -/
theorem deletion_executor_contract_witness :
    Event.raised ("fail delete " ++ toString 1) ∈
      delete_pkgs_exec (fun u => u == "a") ["a", "b"] true :=
  (deletion_executor_contract (fun u => u == "a") ["a", "b"] true).2.2.2.1
    (by decide)

/-- C10: on a run with at least one failed deletion and the pipeline
output file configured, the executor trace is the delete calls, the
deleted-count report, the num_deleted output line (counting only the
successful deletions), and then the raised error: in particular the output
line is written at an index strictly before the raised error. -/
theorem output_written_before_raise (delete : String → Bool)
    (urls : List String) (h : ∃ u ∈ urls, delete u = false) :
    (delete_pkgs_exec delete urls true =
      urls.map Event.del
        ++ [Event.logged ("Deleted "
              ++ toString (urls.countP (fun u => delete u)) ++ " package"),
            Event.output ("num_deleted="
              ++ toString (urls.countP (fun u => delete u))),
            Event.raised ("fail delete "
              ++ toString (urls.countP (fun u => !(delete u))))])
    ∧ (delete_pkgs_exec delete urls true)[urls.length + 1]? =
        some (Event.output ("num_deleted="
          ++ toString (urls.countP (fun u => delete u))))
    ∧ (delete_pkgs_exec delete urls true)[urls.length + 2]? =
        some (Event.raised ("fail delete "
          ++ toString (urls.countP (fun u => !(delete u))))) := by
  have hf : 0 < num_fail delete urls := by
    rw [num_fail_eq_countP, List.countP_pos_iff]
    simpa using h
  have he : delete_pkgs_exec delete urls true =
      urls.map Event.del
        ++ [Event.logged ("Deleted "
              ++ toString (urls.countP (fun u => delete u)) ++ " package"),
            Event.output ("num_deleted="
              ++ toString (urls.countP (fun u => delete u))),
            Event.raised ("fail delete "
              ++ toString (urls.countP (fun u => !(delete u))))] := by
    unfold delete_pkgs_exec
    rw [if_pos hf]
    rw [num_ok_eq_countP, num_fail_eq_countP]
    simp
  refine ⟨he, ?_, ?_⟩
  · rw [he, List.getElem?_append_right (by simp)]
    simp
  · rw [he, List.getElem?_append_right (by simp)]
    simp

/-- Witness for C10: concrete output line at the index right after the
delete calls and the log line. -/
theorem output_written_before_raise_witness :
    (delete_pkgs_exec (fun u => u == "a") ["a", "b"] true)[3]? =
      some (Event.output ("num_deleted=" ++ toString 1)) :=
  (output_written_before_raise (fun u => u == "a") ["a", "b"] (by decide)).2.1

/-! ### Package listing failure policy -/

/-- When every named lookup is either found or 404, the named-package loop
returns normally, with one warning per missing name and one package per
found name, in order. -/
theorem get_named_packages_skip (lookup : String → PkgResponse) :
    ∀ names : List String,
      (∀ n ∈ names, (lookup n).ok = true ∨ (lookup n).status_code = 404) →
      get_named_packages lookup names =
        Except.ok
          (((names.filter (fun n => !(lookup n).ok)).map
              (fun n => "WARNING: Package " ++ n ++ " does not exist.")),
            ((names.filter (fun n => (lookup n).ok)).map
              (fun n => (lookup n).json)))
  | [], _ => rfl
  | n :: rest, h => by
    have ih := get_named_packages_skip lookup rest
      (fun m hm => h m (List.mem_cons_of_mem _ hm))
    by_cases hok : (lookup n).ok = true
    · simp [get_named_packages, hok, ih, List.filter_cons]
    · rcases h n (List.mem_cons_self _ _) with h1 | h404
      · exact absurd h1 hok
      · simp at hok
        simp [get_named_packages, hok, h404, ih, List.filter_cons]

/-- The named-package loop raises on the first non-ok non-404 response,
whatever comes after it. -/
theorem get_named_packages_error (lookup : String → PkgResponse) :
    ∀ (pre : List String) (n : String) (post : List String),
      (∀ m ∈ pre, (lookup m).ok = true ∨ (lookup m).status_code = 404) →
      (lookup n).ok = false → (lookup n).status_code ≠ 404 →
      get_named_packages lookup (pre ++ n :: post) =
        Except.error (lookup n).text
  | [], n, post, _, hok, h404 => by
    simp [get_named_packages, hok, beq_eq_false_iff_ne.mpr h404]
  | m :: pre, n, post, h, hok, h404 => by
    have ih := get_named_packages_error lookup pre n post
      (fun x hx => h x (List.mem_cons_of_mem _ hx)) hok h404
    by_cases hmok : (lookup m).ok = true
    · simp [get_named_packages, hmok, ih]
    · rcases h m (List.mem_cons_self _ _) with h1 | hm
      · exact absurd h1 hmok
      · simp at hmok
        simp [get_named_packages, hmok, hm, ih]

/-- C7: in the named-package listing, 404 responses are non-fatal skips: a
non-empty name list whose every lookup misses with 404 yields a normal
result with an empty package list and one warning per name; any other
non-success named lookup makes the listing raise that response's body,
whatever names follow; and any non-success response inside the paginated
list loop makes it raise immediately. -/
theorem named_lookup_404_policy (lookup : String → PkgResponse)
    (listAll : Except String (List Package)) (repo_name : String) :
    (∀ names : List String, names ≠ [] →
      (∀ n ∈ names, (lookup n).ok = false ∧ (lookup n).status_code = 404) →
      get_list_packages lookup listAll repo_name names =
        Except.ok
          ((names.map (fun n => "WARNING: Package " ++ n ++ " does not exist.")),
            []))
    ∧ (∀ (pre : List String) (n : String) (post : List String),
      (∀ m ∈ pre, (lookup m).ok = true ∨ (lookup m).status_code = 404) →
      (lookup n).ok = false → (lookup n).status_code ≠ 404 →
      get_list_packages lookup listAll repo_name (pre ++ n :: post) =
        Except.error (lookup n).text)
    ∧ (∀ (serve : String → Params → HttpPage Package) (fuel : Nat)
        (url : String) (params : Params) (acc : List Package),
      (serve url params).ok = false →
      get_req_go serve (fuel + 1) url params acc =
        some (Except.error (serve url params).text)) := by
  refine ⟨?_, ?_, ?_⟩
  · intro names hne h
    have hs := get_named_packages_skip lookup names
      (fun n hn => Or.inr (h n hn).2)
    have hall : names.filter (fun n => !(lookup n).ok) = names := by
      rw [List.filter_eq_self]
      intro a ha
      simp [(h a ha).1]
    have hnone : names.filter (fun n => (lookup n).ok) = [] := by
      rw [List.filter_eq_nil_iff]
      intro a ha
      simp [(h a ha).1]
    unfold get_list_packages
    rw [if_neg (by simpa using hne), hs, hall, hnone]
    simp
  · intro pre n post hpre hok h404
    have he := get_named_packages_error lookup pre n post hpre hok h404
    unfold get_list_packages
    rw [if_neg (by simp), he]
  · intro serve fuel url params acc hok
    simp [get_req_go, hok]

/-- Witness for C7: a single missing name yields an empty package list and
a warning. -/
theorem named_lookup_404_policy_witness :
    get_list_packages (fun _ => ⟨false, 404, "not found", ⟨"g", none, "gu"⟩⟩)
        (Except.ok []) "" ["ghost"] =
      Except.ok (["WARNING: Package ghost does not exist."], []) :=
  (named_lookup_404_policy (fun _ => ⟨false, 404, "not found", ⟨"g", none, "gu"⟩⟩)
      (Except.ok []) "").1 ["ghost"] (by decide) (by decide)

end CleanGhcr
